import Mathlib

/-!
Shallow embedding of the route-computation engine of the repository
(src/graph.cpp, src/route.cpp, src/batch.cpp, src/parser.h) in Lean 4.

Modelling conventions:
* C++ `int` is embedded as `Int` (no claim under scrutiny depends on
  wrap-around; where the `INT_MAX` initialisation of Dijkstra distances
  matters, side conditions keep values in the `int` range).
* `std::vector<string>` paths are `List String`; the `std::set` exclusion
  arguments are `List`s queried only through membership, which matches the
  C++ code, which never iterates them.
* A `Graph` is the sequence of `addEdge` calls used to build it; this is the
  only way the C++ class can be populated, and `getAdjacencyList` is the
  fold of those calls.  `addEdge` inserts both directions, appending to the
  per-node vectors exactly as `Graph::addEdge` does.
* The Dijkstra `while (!pq.empty())` loop is driven by fuel.  The loop pops
  one queue entry per iteration and entries are only inserted by the initial
  push and by relaxations; a node is scanned at most once (the `visited`
  check), so at most one relaxation per adjacency entry can occur and the
  number of iterations is bounded by `1 + (total adjacency entries)`
  independently of the edge weights.  The fuel `2 * g.length + 2` therefore
  always exceeds the iteration count and the embedded loop stops exactly
  where the C++ loop stops (when the queue is empty).
* The predecessor-walk reconstruction loop of the C++ code does not
  terminate if the predecessor chain is cyclic or dangles (`std::map`
  `operator[]` then feeds it empty strings forever); the embedding returns
  the empty path in that situation, which never arises in states produced
  by the search loop.
-/

/-- Edge payload stored in the adjacency lists (`EdgeData` in src/graph.h);
`-1` is the "mode unavailable" sentinel. -/
structure EdgeData where
  drivingTime : Int
  walkingTime : Int

deriving DecidableEq, Repr

/-- A graph is the list of `addEdge from to drivingTime walkingTime` calls
that built it (the class in src/graph.h exposes no other mutation). -/
abbrev Graph := List (String × String × Int × Int)

/-- `INT_MAX`, the initial tentative distance of src/route.cpp. -/
def INT_MAX : Int := 2147483647

/-- A single `push_back` on one adjacency vector. -/
def pushAdj (adj : String → List (String × EdgeData)) (a b : String)
    (e : EdgeData) : String → List (String × EdgeData) :=
  fun x => if x = a then adj a ++ [(b, e)] else adj x

/-- `Graph::addEdge` (src/graph.cpp): inserts the edge in both directions
with the identical weight pair. -/
def addEdge (adj : String → List (String × EdgeData)) (f t : String)
    (dt wt : Int) : String → List (String × EdgeData) :=
  pushAdj (pushAdj adj f t ⟨dt, wt⟩) t f ⟨dt, wt⟩

/-- `Graph::getAdjacencyList`: the adjacency map built by the recorded
`addEdge` calls.  Unknown nodes have the empty list, matching `operator[]`
default insertion on the copied map. -/
def getAdjacencyList (g : Graph) : String → List (String × EdgeData) :=
  g.foldl (fun adj e => addEdge adj e.1 e.2.1 e.2.2.1 e.2.2.2) (fun _ => [])

/-- Whether `v` is a key of the adjacency map (every endpoint of every
inserted edge is one). -/
def isGraphNode (g : Graph) (v : String) : Bool :=
  g.any (fun e => e.1 = v || e.2.1 = v)

/-- The state of the Dijkstra loops of src/route.cpp: tentative distances,
predecessor map, visited set, and the priority-queue content. -/
structure DijkstraState where
  dist : String → Int
  prev : List (String × String)
  visited : List String
  pq : List (Int × String)

/-- Lexicographic comparison of character lists by code point.  UTF-8 byte
order coincides with code-point order, so this is exactly the
`std::string` `operator<` used by the priority queue. -/
def charListLt : List Char → List Char → Bool
  | [], [] => false
  | [], _ :: _ => true
  | _ :: _, [] => false
  | a :: as, b :: bs =>
    if a.toNat < b.toNat then true
    else if a.toNat = b.toNat then charListLt as bs
    else false

/-- `std::string` comparison (byte-lexicographic). -/
def strLt (a b : String) : Bool := charListLt a.data b.data

/-- Strict order used by `priority_queue<pair<int,string>, …, greater<>>`:
lexicographic on the (distance, node) pair. -/
def pairLt (a b : Int × String) : Bool :=
  if a.1 < b.1 then true else if a.1 = b.1 then strLt a.2 b.2 else false

/-- The minimum element of the queue (the element `top()` returns). -/
def findMinPair : List (Int × String) → Option (Int × String)
  | [] => none
  | x :: xs => some (xs.foldl (fun m y => if pairLt y m then y else m) x)

/-- `top()` + `pop()`: return the minimum entry and the remaining queue. -/
def popMin (pq : List (Int × String)) :
    Option ((Int × String) × List (Int × String)) :=
  match findMinPair pq with
  | none => none
  | some m => some (m, pq.erase m)

/-- One relaxation attempt for the neighbour entry `ve` of the node `u`
currently being scanned.  `edgeOk u v e` collects the `continue` filters of
the respective C++ loop; the relaxation weight is always `drivingTime`,
exactly as in all four search functions of src/route.cpp. -/
def relaxEdge (edgeOk : String → String → EdgeData → Bool) (u : String)
    (s : DijkstraState) (ve : String × EdgeData) : DijkstraState :=
  if edgeOk u ve.1 ve.2 then
    if s.dist ve.1 > s.dist u + ve.2.drivingTime then
      { s with
        dist := fun w => if w = ve.1 then s.dist u + ve.2.drivingTime else s.dist w,
        prev := (ve.1, u) :: s.prev,
        pq := (s.dist u + ve.2.drivingTime, ve.1) :: s.pq }
    else s
  else s

/-- The `while (!pq.empty())` loop, fuel-driven (see the header comment:
the supplied fuel always exceeds the possible number of iterations). -/
def dijkstraLoop (adj : String → List (String × EdgeData))
    (edgeOk : String → String → EdgeData → Bool) :
    Nat → DijkstraState → DijkstraState
  | 0, s => s
  | fuel + 1, s =>
    match popMin s.pq with
    | none => s
    | some ((_, u), rest) =>
      if s.visited.contains u then
        dijkstraLoop adj edgeOk fuel { s with pq := rest }
      else
        dijkstraLoop adj edgeOk fuel
          ((adj u).foldl (relaxEdge edgeOk u)
            { s with pq := rest, visited := u :: s.visited })

/-- The predecessor walk `for (at = dest; at != source; at = prev[at])`,
collected front-to-back as `[dest, …, source]`.  `none` models the C++
loop never terminating (cyclic or dangling predecessor chain). -/
def backChain (prev : List (String × String)) (source : String) :
    Nat → String → Option (List String)
  | 0, _ => none
  | fuel + 1, cur =>
    if cur = source then some [cur]
    else
      match prev.lookup cur with
      | some u => (backChain prev source fuel u).map (fun l => cur :: l)
      | none => none

/-- Path reconstruction of src/route.cpp: empty if `prev` has no entry for
the destination, otherwise the reversed predecessor walk. -/
def reconstructPath (prev : List (String × String)) (source dest : String) :
    List String :=
  match prev.lookup dest with
  | none => []
  | some _ =>
    match backChain prev source (prev.length + 1) dest with
    | some l => l.reverse
    | none => []

/-- Fuel bound for the search loop (see the header comment). -/
def dijkstraFuel (g : Graph) : Nat := 2 * g.length + 2

/-- The state right before the search loop: source distance zero, known
nodes at `INT_MAX` (`operator[]` yields 0 for nodes never initialised),
empty predecessor and visited structures, the source pushed. -/
def dijkstraInit (g : Graph) (source : String) : DijkstraState :=
  { dist := fun v => if v = source then 0 else if isGraphNode g v then INT_MAX else 0,
    prev := [], visited := [], pq := [(0, source)] }

/-- The state after the search loop has drained the queue. -/
def dijkstraFinalState (g : Graph) (source : String)
    (edgeOk : String → String → EdgeData → Bool) : DijkstraState :=
  dijkstraLoop (getAdjacencyList g) edgeOk (dijkstraFuel g) (dijkstraInit g source)

/-- The common body of the three Dijkstra functions of src/route.cpp,
parameterised by the per-function edge filter. -/
def runDijkstra (g : Graph) (source dest : String)
    (edgeOk : String → String → EdgeData → Bool) : List String :=
  reconstructPath (dijkstraFinalState g source edgeOk).prev source dest

/-- `dijkstraShortestPath` (src/route.cpp, lines 23-59): plain Dijkstra on
the driving weight, skipping edges whose driving time is the sentinel. -/
def dijkstraShortestPath (g : Graph) (source dest : String) : List String :=
  runDijkstra g source dest (fun _ _ edge => !(edge.drivingTime == -1))

/-- The consecutive pairs of a path (the segments it traverses). -/
def pathPairs (p : List String) : List (String × String) := p.zip p.tail

/-- The forbidden-node set of `findAlternativeRoute`: the elements strictly
between `begin()+1` and `end()-1` of the main path.  The C++ code performs
this iterator arithmetic unguarded; for main paths shorter than 2 it is out
of bounds (see `altForbiddenLoopInBounds` below), so this definition is the
behaviour on the well-defined inputs (length at least 2). -/
def forbiddenNodesOf (mainPath : List String) : List String :=
  (mainPath.drop 1).dropLast

/-- The forbidden-segment set of `findAlternativeRoute`: every consecutive
pair of the main path, inserted in both orientations. -/
def forbiddenEdgesOf (mainPath : List String) : List (String × String) :=
  pathPairs mainPath ++ (pathPairs mainPath).map (fun e => (e.2, e.1))

/-- `findAlternativeRoute` (src/route.cpp, lines 72-122). -/
def findAlternativeRoute (g : Graph) (source dest : String)
    (mainPath : List String) : List String :=
  let forbiddenNodes := forbiddenNodesOf mainPath
  let forbiddenEdges := forbiddenEdgesOf mainPath
  runDijkstra g source dest (fun u v edge =>
    !(edge.drivingTime == -1) && !(forbiddenNodes.contains v) &&
      !(forbiddenEdges.contains (u, v) || forbiddenEdges.contains (v, u)))

/-- `dijkstraRestricted` (src/route.cpp, lines 198-239). -/
def dijkstraRestricted (g : Graph) (source dest : String)
    (avoidNodes : List String) (avoidSegments : List (String × String)) :
    List String :=
  runDijkstra g source dest (fun u v edge =>
    !(edge.drivingTime == -1) && !(avoidNodes.contains v) &&
      !(avoidSegments.contains (u, v) || avoidSegments.contains (v, u)))

/-- First adjacency entry of `a` pointing at `b` — the inner
`for (…) { if (v == path[i+1]) … break; }` lookup of the time-aggregation
functions. -/
def lookupEdge (adjA : List (String × EdgeData)) (b : String) :
    Option EdgeData :=
  adjA.lookup b

/-- Shared aggregation core of `calculateDrivingTime` and
`calculateWalkingTime`: `none` models the early `return -1` on a missing
edge or an unavailable selected weight. -/
def calcAux (sel : EdgeData → Int) (adj : String → List (String × EdgeData)) :
    List String → Option Int
  | a :: b :: rest =>
    match lookupEdge (adj a) b with
    | none => none
    | some e =>
      if sel e = -1 then none
      else (calcAux sel adj (b :: rest)).map (fun t => sel e + t)
  | _ => some 0

/-- `calculateDrivingTime` (src/route.cpp, lines 133-153). -/
def calculateDrivingTime (g : Graph) (path : List String) : Int :=
  if path.length < 2 then 0
  else (calcAux (fun e => e.drivingTime) (getAdjacencyList g) path).getD (-1)

/-- `calculateWalkingTime` (src/route.cpp, lines 164-184). -/
def calculateWalkingTime (g : Graph) (path : List String) : Int :=
  if path.length < 2 then 0
  else (calcAux (fun e => e.walkingTime) (getAdjacencyList g) path).getD (-1)

/-- `Location` (src/parser.h). -/
structure Location where
  name : String
  id : Int
  code : String
  hasParking : Bool

/-- The accumulator of the parking-candidate loop of `findEcoRoute`. -/
structure EcoBest where
  bestPark : String
  bestTotal : Int
  bestWalkTime : Int
  bestDrivePath : List String
  bestWalkPath : List String

/-- One iteration of the parking-candidate loop of `findEcoRoute`
(src/route.cpp, lines 284-307).  Note that both legs are computed by
`dijkstraRestricted`, i.e. under the driving weight. -/
def ecoStep (g : Graph) (source dest : String) (maxWalkTime : Int)
    (avoidNodes : List String) (avoidSegments : List (String × String))
    (b : EcoBest) (park : String) : EcoBest :=
  if avoidNodes.contains park then b
  else
    let drivePath := dijkstraRestricted g source park avoidNodes avoidSegments
    let walkPath := dijkstraRestricted g park dest avoidNodes avoidSegments
    if drivePath.isEmpty || walkPath.isEmpty then b
    else
      let driveTime := calculateDrivingTime g drivePath
      let walkTime := calculateWalkingTime g walkPath
      if walkTime > maxWalkTime then b
      else
        let total := driveTime + walkTime
        if total < b.bestTotal ∨ (total = b.bestTotal ∧ walkTime > b.bestWalkTime) then
          { bestPark := park, bestTotal := total, bestWalkTime := walkTime,
            bestDrivePath := drivePath, bestWalkPath := walkPath }
        else b

/-- The parking-candidate collection loop of `findEcoRoute` (src/route.cpp,
lines 267-272): the codes of the locations flagged as having parking, in
list order. -/
def parkingCandidatesOf (locations : List Location) : List String :=
  (locations.filter (fun l => l.hasParking)).map (fun l => l.code)

/-- `findEcoRoute` (src/route.cpp, lines 255-316); the global `locations`
vector is passed explicitly, and the `message` out-parameter is returned
alongside the result triple. -/
def findEcoRoute (locations : List Location) (g : Graph)
    (source dest : String) (maxWalkTime : Int)
    (avoidNodes : List String) (avoidSegments : List (String × String)) :
    (List String × String × List String) × String :=
  let parkingCandidates := parkingCandidatesOf locations
  if parkingCandidates.isEmpty then (([], "", []), "No parking nodes available.")
  else
    let b := parkingCandidates.foldl
      (ecoStep g source dest maxWalkTime avoidNodes avoidSegments)
      ⟨"", INT_MAX, -1, [], []⟩
    if b.bestDrivePath.isEmpty || b.bestWalkPath.isEmpty then
      (([], "", []), "No viable eco route found.")
    else ((b.bestDrivePath, b.bestPark, b.bestWalkPath), "Eco route found.")

/-- The `driving-restricted` composition of src/batch.cpp (lines 134-147):
with a mandatory waypoint the two restricted legs are concatenated after
dropping the waypoint from the first leg; without one the direct restricted
search is used. -/
def restrictedRouteWithWaypoint (g : Graph)
    (sourceCode includeCode destCode : String)
    (avoidNodes : List String) (avoidSegments : List (String × String)) :
    List String :=
  if includeCode ≠ "" then
    let p1 := dijkstraRestricted g sourceCode includeCode avoidNodes avoidSegments
    let p2 := dijkstraRestricted g includeCode destCode avoidNodes avoidSegments
    if !p1.isEmpty && !p2.isEmpty then p1.dropLast ++ p2 else []
  else dijkstraRestricted g sourceCode destCode avoidNodes avoidSegments

/-- `size_t` modulus, for modelling the unsigned loop bound of
`findAlternativeRoute`. -/
def SIZE_T_MOD : Nat := 2 ^ 64

/-- The number of iterations of the forbidden-segment loop
`for (size_t i = 0; i < mainPath.size() - 1; ++i)` of
`findAlternativeRoute`, with the unsigned wrap-around of `size() - 1`. -/
def altForbiddenLoopBound (mainPath : List String) : Nat :=
  (mainPath.length + (SIZE_T_MOD - 1)) % SIZE_T_MOD

/-- Every index accessed by the forbidden-segment loop of
`findAlternativeRoute` (it reads `mainPath[i]` and `mainPath[i+1]`) is in
bounds. -/
def altForbiddenLoopInBounds (mainPath : List String) : Prop :=
  ∀ i, i < altForbiddenLoopBound mainPath → i + 1 < mainPath.length

/-- The iterator range `(mainPath.begin() + 1, mainPath.end() - 1)` used to
build the forbidden-node set of `findAlternativeRoute` is a valid range. -/
def altForbiddenNodesRangeOk (mainPath : List String) : Prop :=
  2 ≤ mainPath.length

/-- Non-negative-or-sentinel edge weights: the data-model invariant of the
spec (each weight is a non-negative duration or the `-1` sentinel). -/
def WeightsOk (g : Graph) : Prop :=
  ∀ e ∈ g, (e.2.2.1 = -1 ∨ 0 ≤ e.2.2.1) ∧ (e.2.2.2 = -1 ∨ 0 ≤ e.2.2.2)

/-! ### Predicates used by the proofs -/

/-- Every entry `(v, u)` of the predecessor map satisfies `P v u`. -/
def PrevInv (P : String → String → Prop) (s : DijkstraState) : Prop :=
  ∀ p ∈ s.prev, P p.1 p.2

/-- All tentative distances are non-negative, the source distance is zero,
and the source has no predecessor entry. -/
def DistInv (source : String) (s : DijkstraState) : Prop :=
  (∀ v, 0 ≤ s.dist v) ∧ s.dist source = 0 ∧ s.prev.lookup source = none

/-- The aggregation loop hits its early `return -1` at the pair `(a, b)`:
no adjacency entry of `a` points at `b`, or the first one that does carries
the unavailable sentinel for the selected mode. -/
def stepBad (sel : EdgeData → Int) (adj : String → List (String × EdgeData))
    (a b : String) : Prop :=
  match lookupEdge (adj a) b with
  | none => True
  | some e => sel e = -1

/-- Addition on the `Option Int` results of the aggregation core. -/
def oadd (x y : Option Int) : Option Int :=
  x.bind (fun a => y.map (fun b => a + b))

/-- The drive leg computed for a parking candidate. -/
def ecoDrivePath (g : Graph) (source : String) (aN : List String)
    (aS : List (String × String)) (park : String) : List String :=
  dijkstraRestricted g source park aN aS

/-- The walk leg computed for a parking candidate (by the driving-weight
search, exactly as the code does). -/
def ecoWalkPath (g : Graph) (dest : String) (aN : List String)
    (aS : List (String × String)) (park : String) : List String :=
  dijkstraRestricted g park dest aN aS

/-- The aggregated walking time of the candidate's walk leg. -/
def ecoWalkTime (g : Graph) (dest : String) (aN : List String)
    (aS : List (String × String)) (park : String) : Int :=
  calculateWalkingTime g (ecoWalkPath g dest aN aS park)

/-- The aggregated driving time of the candidate's drive leg. -/
def ecoDriveTime (g : Graph) (source : String) (aN : List String)
    (aS : List (String × String)) (park : String) : Int :=
  calculateDrivingTime g (ecoDrivePath g source aN aS park)

/-- The candidate's total time, drive plus walk. -/
def ecoTotal (g : Graph) (source dest : String) (aN : List String)
    (aS : List (String × String)) (park : String) : Int :=
  ecoDriveTime g source aN aS park + ecoWalkTime g dest aN aS park

/-- A parking candidate survives the filtering of the loop: not excluded,
both legs non-empty, walk time within budget. -/
def ecoSurvives (g : Graph) (source dest : String) (maxWalkTime : Int)
    (aN : List String) (aS : List (String × String)) (park : String) : Bool :=
  !(aN.contains park) && !(ecoDrivePath g source aN aS park).isEmpty &&
    !(ecoWalkPath g dest aN aS park).isEmpty &&
    !(ecoWalkTime g dest aN aS park > maxWalkTime)

/-- The accumulator value the loop stores when it selects `park`. -/
def ecoBestOf (g : Graph) (source dest : String) (aN : List String)
    (aS : List (String × String)) (park : String) : EcoBest :=
  { bestPark := park,
    bestTotal := ecoTotal g source dest aN aS park,
    bestWalkTime := ecoWalkTime g dest aN aS park,
    bestDrivePath := ecoDrivePath g source aN aS park,
    bestWalkPath := ecoWalkPath g dest aN aS park }

/-- The replacement test of the loop: strictly smaller total, or equal
total and strictly larger walk time. -/
def ecoBeats (g : Graph) (source dest : String) (aN : List String)
    (aS : List (String × String)) (park : String) (b : EcoBest) : Prop :=
  ecoTotal g source dest aN aS park < b.bestTotal ∨
    (ecoTotal g source dest aN aS park = b.bestTotal ∧
      ecoWalkTime g dest aN aS park > b.bestWalkTime)

instance ecoBeatsDecidable (g : Graph) (source dest : String)
    (aN : List String) (aS : List (String × String)) (park : String)
    (b : EcoBest) : Decidable (ecoBeats g source dest aN aS park b) := by
  unfold ecoBeats
  exact inferInstance

/-- The parking candidates that survive the loop's filtering, in iteration
order. -/
def survivorsList (g : Graph) (source dest : String) (maxWalkTime : Int)
    (aN : List String) (aS : List (String × String)) (cands : List String) :
    List String :=
  cands.filter (fun p => ecoSurvives g source dest maxWalkTime aN aS p)

/-- `b1` is at least as good as `b2` in the loop's selection order
(smaller total, or equal total and at least as large walk time). -/
def keyLe (b1 b2 : EcoBest) : Prop :=
  b1.bestTotal < b2.bestTotal ∨
    (b1.bestTotal = b2.bestTotal ∧ b1.bestWalkTime ≥ b2.bestWalkTime)

/-- Whatever the loop has selected was produced by a surviving candidate
and stores that candidate's two legs. -/
def EcoInv (g : Graph) (source dest : String) (maxWalkTime : Int)
    (aN : List String) (aS : List (String × String)) (b : EcoBest) : Prop :=
  b.bestDrivePath ≠ [] →
    (b.bestDrivePath = ecoDrivePath g source aN aS b.bestPark ∧
      b.bestWalkPath = ecoWalkPath g dest aN aS b.bestPark ∧
      ecoSurvives g source dest maxWalkTime aN aS b.bestPark = true)

instance weightsOkDecidable (g : Graph) : Decidable (WeightsOk g) := by
  unfold WeightsOk
  exact inferInstance

instance altRangeOkDecidable (mainPath : List String) :
    Decidable (altForbiddenNodesRangeOk mainPath) := by
  unfold altForbiddenNodesRangeOk
  exact inferInstance

/-! ### Generic list lemmas -/

theorem lookup_mem {α β : Type} [BEq α] [LawfulBEq α]
    {l : List (α × β)} {k : α} {v : β} (h : l.lookup k = some v) :
    (k, v) ∈ l := by
  induction l with
  | nil => simp [List.lookup] at h
  | cons p t ih =>
    obtain ⟨a, b⟩ := p
    by_cases hk : k == a
    · simp only [List.lookup, hk] at h
      injection h with h
      subst h
      obtain rfl := eq_of_beq hk
      exact List.mem_cons_self _ _
    · rw [Bool.not_eq_true] at hk
      simp only [List.lookup, hk] at h
      exact List.mem_cons_of_mem _ (ih h)

theorem contains_false_not_mem {α : Type} [BEq α] [LawfulBEq α]
    {l : List α} {a : α} (h : l.contains a = false) : a ∉ l := by
  intro hm
  induction l with
  | nil => cases hm
  | cons b t ih =>
    rw [List.contains_cons, Bool.or_eq_false_iff] at h
    rcases List.mem_cons.mp hm with rfl | hm2
    · simp at h
    · exact ih h.2 hm2

/-! ### Invariants of the search loop -/

theorem relaxEdge_prevInv {edgeOk : String → String → EdgeData → Bool}
    {u : String} {s : DijkstraState} {ve : String × EdgeData}
    {P : String → String → Prop}
    (hOk : edgeOk u ve.1 ve.2 = true → P ve.1 u)
    (h : PrevInv P s) : PrevInv P (relaxEdge edgeOk u s ve) := by
  unfold relaxEdge
  split
  · split
    · intro p hp
      rcases List.mem_cons.mp hp with rfl | hp'
      · exact hOk (by assumption)
      · exact h p hp'
    · exact h
  · exact h

theorem foldlRelax_prevInv {edgeOk : String → String → EdgeData → Bool}
    {u : String} {P : String → String → Prop}
    (l : List (String × EdgeData))
    (hOk : ∀ ve ∈ l, edgeOk u ve.1 ve.2 = true → P ve.1 u) :
    ∀ s, PrevInv P s → PrevInv P (l.foldl (relaxEdge edgeOk u) s) := by
  induction l with
  | nil => exact fun s h => h
  | cons ve t ih =>
    intro s h
    exact ih (fun x hx => hOk x (List.mem_cons_of_mem _ hx)) _
      (relaxEdge_prevInv (hOk ve (List.mem_cons_self _ _)) h)

theorem dijkstraLoop_prevInv {adj : String → List (String × EdgeData)}
    {edgeOk : String → String → EdgeData → Bool} {P : String → String → Prop}
    (hOk : ∀ u v e, edgeOk u v e = true → P v u) :
    ∀ (fuel : Nat) (s : DijkstraState), PrevInv P s →
      PrevInv P (dijkstraLoop adj edgeOk fuel s) := by
  intro fuel
  induction fuel with
  | zero => exact fun s h => h
  | succ f ih =>
    intro s h
    rw [dijkstraLoop]
    split
    · exact h
    · split
      · exact ih _ h
      · exact ih _ (foldlRelax_prevInv _ (fun ve _ hg => hOk _ _ _ hg) _ h)

theorem finalState_prevInv {g : Graph} {source : String}
    {edgeOk : String → String → EdgeData → Bool} {P : String → String → Prop}
    (hOk : ∀ u v e, edgeOk u v e = true → P v u) :
    PrevInv P (dijkstraFinalState g source edgeOk) :=
  dijkstraLoop_prevInv hOk _ _ (by intro p hp; simp [dijkstraInit] at hp)

theorem relaxEdge_distInv {edgeOk : String → String → EdgeData → Bool}
    {u source : String} {s : DijkstraState} {ve : String × EdgeData}
    (hw : edgeOk u ve.1 ve.2 = true → 0 ≤ ve.2.drivingTime)
    (h : DistInv source s) : DistInv source (relaxEdge edgeOk u s ve) := by
  obtain ⟨h0, hsrc, hlk⟩ := h
  unfold relaxEdge
  split
  · split
    · rename_i hg hgt
      have hwt := hw hg
      have hne : ve.1 ≠ source := by
        intro he
        rw [he, hsrc] at hgt
        have := h0 u
        omega
      refine ⟨?_, ?_, ?_⟩
      · intro v
        dsimp only
        split
        · exact add_nonneg (h0 u) hwt
        · exact h0 v
      · show (if source = ve.1 then s.dist u + ve.2.drivingTime else s.dist source) = 0
        rw [if_neg (fun he => hne he.symm), hsrc]
      · show ((ve.1, u) :: s.prev).lookup source = none
        have hb : (source == ve.1) = false :=
          beq_eq_false_iff_ne.mpr (fun he => hne he.symm)
        simp only [List.lookup, hb]
        exact hlk
    · exact ⟨h0, hsrc, hlk⟩
  · exact ⟨h0, hsrc, hlk⟩

theorem foldlRelax_distInv {edgeOk : String → String → EdgeData → Bool}
    {u source : String} (l : List (String × EdgeData))
    (hw : ∀ ve ∈ l, edgeOk u ve.1 ve.2 = true → 0 ≤ ve.2.drivingTime) :
    ∀ s, DistInv source s → DistInv source (l.foldl (relaxEdge edgeOk u) s) := by
  induction l with
  | nil => exact fun s h => h
  | cons ve t ih =>
    intro s h
    exact ih (fun x hx => hw x (List.mem_cons_of_mem _ hx)) _
      (relaxEdge_distInv (hw ve (List.mem_cons_self _ _)) h)

theorem dijkstraLoop_distInv {adj : String → List (String × EdgeData)}
    {edgeOk : String → String → EdgeData → Bool} {source : String}
    (hW : ∀ u v e, (v, e) ∈ adj u → edgeOk u v e = true → 0 ≤ e.drivingTime) :
    ∀ (fuel : Nat) (s : DijkstraState), DistInv source s →
      DistInv source (dijkstraLoop adj edgeOk fuel s) := by
  intro fuel
  induction fuel with
  | zero => exact fun s h => h
  | succ f ih =>
    intro s h
    rw [dijkstraLoop]
    split
    · exact h
    · split
      · exact ih _ h
      · rename_i u rest _hv
        exact ih _ (foldlRelax_distInv _ (fun ve hve hg => hW _ _ _ hve hg) _ h)

theorem finalState_distInv {g : Graph} {source : String}
    {edgeOk : String → String → EdgeData → Bool}
    (hW : ∀ u v e, (v, e) ∈ getAdjacencyList g u → edgeOk u v e = true →
      0 ≤ e.drivingTime) :
    DistInv source (dijkstraFinalState g source edgeOk) := by
  apply dijkstraLoop_distInv hW
  refine ⟨?_, ?_, rfl⟩
  · intro v
    show (0:Int) ≤ if v = source then 0 else if isGraphNode g v then INT_MAX else 0
    split
    · exact le_refl 0
    · split
      · norm_num [INT_MAX]
      · exact le_refl 0
  · show (if source = source then (0:Int) else _) = 0
    rw [if_pos rfl]

theorem runDijkstra_self_empty {g : Graph} {source : String}
    {edgeOk : String → String → EdgeData → Bool}
    (hW : ∀ u v e, (v, e) ∈ getAdjacencyList g u → edgeOk u v e = true →
      0 ≤ e.drivingTime) :
    runDijkstra g source source edgeOk = [] := by
  have h := (@finalState_distInv g source edgeOk hW).2.2
  unfold runDijkstra reconstructPath
  rw [h]

/-! ### From the adjacency structure back to the recorded edges -/

theorem mem_pushAdj {adj : String → List (String × EdgeData)}
    {a b u v : String} {e ed : EdgeData}
    (h : (v, ed) ∈ pushAdj adj a b e u) :
    (v, ed) ∈ adj u ∨ (u = a ∧ v = b ∧ ed = e) := by
  unfold pushAdj at h
  split at h
  · rename_i hu
    rcases List.mem_append.mp h with h1 | h1
    · left
      rw [hu]
      exact h1
    · right
      simp only [List.mem_singleton, Prod.mk.injEq] at h1
      exact ⟨hu, h1.1, h1.2⟩
  · exact Or.inl h

theorem mem_addEdge {adj : String → List (String × EdgeData)}
    {f t u v : String} {dt wt : Int} {ed : EdgeData}
    (h : (v, ed) ∈ addEdge adj f t dt wt u) :
    (v, ed) ∈ adj u ∨ ((u = f ∧ v = t ∨ u = t ∧ v = f) ∧ ed = ⟨dt, wt⟩) := by
  unfold addEdge at h
  rcases mem_pushAdj h with h1 | h1
  · rcases mem_pushAdj h1 with h2 | h2
    · exact Or.inl h2
    · exact Or.inr ⟨Or.inl ⟨h2.1, h2.2.1⟩, h2.2.2⟩
  · exact Or.inr ⟨Or.inr ⟨h1.1, h1.2.1⟩, h1.2.2⟩

theorem mem_getAdjacencyList {g : Graph} {u v : String} {ed : EdgeData}
    (h : (v, ed) ∈ getAdjacencyList g u) :
    (u, v, ed.drivingTime, ed.walkingTime) ∈ g ∨
      (v, u, ed.drivingTime, ed.walkingTime) ∈ g := by
  have H : ∀ (l : List (String × String × Int × Int))
      (adj0 : String → List (String × EdgeData)),
      (v, ed) ∈ (l.foldl (fun adj e => addEdge adj e.1 e.2.1 e.2.2.1 e.2.2.2) adj0) u →
      (v, ed) ∈ adj0 u ∨ (u, v, ed.drivingTime, ed.walkingTime) ∈ l ∨
        (v, u, ed.drivingTime, ed.walkingTime) ∈ l := by
    intro l
    induction l with
    | nil => exact fun adj0 h0 => Or.inl h0
    | cons x xs ih =>
      intro adj0 h0
      rw [List.foldl_cons] at h0
      rcases ih _ h0 with h1 | h1 | h1
      · rcases mem_addEdge h1 with h2 | h2
        · exact Or.inl h2
        · obtain ⟨hx, he⟩ := h2
          obtain ⟨x1, x2, x3, x4⟩ := x
          rcases hx with ⟨hu, hv⟩ | ⟨hu, hv⟩
          · refine Or.inr (Or.inl ?_)
            have hxeq : (u, v, ed.drivingTime, ed.walkingTime) = (x1, x2, x3, x4) := by
              rw [hu, hv, he]
            rw [hxeq]
            exact List.mem_cons_self _ _
          · refine Or.inr (Or.inr ?_)
            have hxeq : (v, u, ed.drivingTime, ed.walkingTime) = (x1, x2, x3, x4) := by
              rw [hu, hv, he]
            rw [hxeq]
            exact List.mem_cons_self _ _
      · exact Or.inr (Or.inl (List.mem_cons_of_mem _ h1))
      · exact Or.inr (Or.inr (List.mem_cons_of_mem _ h1))
  rcases H g (fun _ => []) h with h' | h' | h'
  · cases h'
  · exact Or.inl h'
  · exact Or.inr h'

theorem adj_weights {g : Graph} (hg : WeightsOk g) {u v : String} {ed : EdgeData}
    (h : (v, ed) ∈ getAdjacencyList g u) :
    (ed.drivingTime = -1 ∨ 0 ≤ ed.drivingTime) ∧
      (ed.walkingTime = -1 ∨ 0 ≤ ed.walkingTime) := by
  rcases mem_getAdjacencyList h with h' | h'
  · exact hg _ h'
  · exact hg _ h'

theorem restrictedOk_weight {g : Graph} (hg : WeightsOk g)
    {aN : List String} {aS : List (String × String)} :
    ∀ u v e, (v, e) ∈ getAdjacencyList g u →
      (!(e.drivingTime == -1) && !(aN.contains v) &&
        !(aS.contains (u, v) || aS.contains (v, u))) = true →
      0 ≤ e.drivingTime := by
  intro u v e hmem hok
  simp only [Bool.and_eq_true, Bool.not_eq_true', beq_eq_false_iff_ne] at hok
  rcases (adj_weights hg hmem).1 with h | h
  · exact absurd h hok.1.1
  · exact h

theorem plainOk_weight {g : Graph} (hg : WeightsOk g) :
    ∀ u v e, (v, e) ∈ getAdjacencyList g u →
      (!(e.drivingTime == -1)) = true → 0 ≤ e.drivingTime := by
  intro u v e hmem hok
  simp only [Bool.not_eq_true', beq_eq_false_iff_ne] at hok
  rcases (adj_weights hg hmem).1 with h | h
  · exact absurd h hok
  · exact h

theorem dijkstraRestricted_self {g : Graph} {source : String}
    {aN : List String} {aS : List (String × String)} (hg : WeightsOk g) :
    dijkstraRestricted g source source aN aS = [] := by
  unfold dijkstraRestricted
  exact runDijkstra_self_empty (restrictedOk_weight hg)

theorem dijkstraShortestPath_self {g : Graph} {source : String}
    (hg : WeightsOk g) : dijkstraShortestPath g source source = [] := by
  unfold dijkstraShortestPath
  exact runDijkstra_self_empty (plainOk_weight hg)

/-! ### Structure of the reconstructed predecessor walk -/

theorem backChain_shape {prev : List (String × String)} {src : String}
    {fuel : Nat} {cur : String} {l : List String}
    (h : backChain prev src fuel cur = some l) : ∃ t, l = cur :: t := by
  cases fuel with
  | zero => simp [backChain] at h
  | succ f =>
    rw [backChain] at h
    split at h
    · injection h with h
      exact ⟨[], h.symm⟩
    · cases hlk : prev.lookup cur with
      | none => rw [hlk] at h; simp at h
      | some u =>
        rw [hlk] at h
        rcases Option.map_eq_some'.mp h with ⟨m, _, hl⟩
        exact ⟨m, hl.symm⟩

theorem backChain_last {prev : List (String × String)} {src : String} :
    ∀ {fuel : Nat} {cur : String} {l : List String},
      backChain prev src fuel cur = some l → l.getLast? = some src := by
  intro fuel
  induction fuel with
  | zero => intro cur l h; simp [backChain] at h
  | succ f ih =>
    intro cur l h
    rw [backChain] at h
    split at h
    · rename_i hcur
      injection h with h
      subst h
      simp [hcur]
    · cases hlk : prev.lookup cur with
      | none => rw [hlk] at h; simp at h
      | some u =>
        rw [hlk] at h
        rcases Option.map_eq_some'.mp h with ⟨m, hm, hl⟩
        subst hl
        rcases backChain_shape hm with ⟨t, rfl⟩
        rw [List.getLast?_cons_cons]
        exact ih hm

theorem backChain_mem {prev : List (String × String)} {src : String} :
    ∀ {fuel : Nat} {cur : String} {l : List String},
      backChain prev src fuel cur = some l →
      ∀ x ∈ l, x = src ∨ ∃ u, prev.lookup x = some u := by
  intro fuel
  induction fuel with
  | zero => intro cur l h; simp [backChain] at h
  | succ f ih =>
    intro cur l h x hx
    rw [backChain] at h
    split at h
    · rename_i hcur
      injection h with h
      subst h
      rcases List.mem_singleton.mp hx with rfl
      exact Or.inl hcur
    · cases hlk : prev.lookup cur with
      | none => rw [hlk] at h; simp at h
      | some u =>
        rw [hlk] at h
        rcases Option.map_eq_some'.mp h with ⟨m, hm, hl⟩
        subst hl
        rcases List.mem_cons.mp hx with rfl | hxm
        · exact Or.inr ⟨u, hlk⟩
        · exact ih hm x hxm

theorem backChain_chain {prev : List (String × String)} {src : String} :
    ∀ {fuel : Nat} {cur : String} {l : List String},
      backChain prev src fuel cur = some l →
      List.Chain' (fun a b => prev.lookup a = some b) l := by
  intro fuel
  induction fuel with
  | zero => intro cur l h; simp [backChain] at h
  | succ f ih =>
    intro cur l h
    rw [backChain] at h
    split at h
    · injection h with h
      subst h
      exact List.chain'_singleton _
    · cases hlk : prev.lookup cur with
      | none => rw [hlk] at h; simp at h
      | some u =>
        rw [hlk] at h
        rcases Option.map_eq_some'.mp h with ⟨m, hm, hl⟩
        subst hl
        rcases backChain_shape hm with ⟨t, rfl⟩
        exact List.chain'_cons.mpr ⟨hlk, ih hm⟩

theorem backChain_front_ne {prev : List (String × String)} {src : String} :
    ∀ {fuel : Nat} {cur : String} {l : List String},
      backChain prev src fuel cur = some l →
      ∀ x ∈ l.dropLast, x ≠ src := by
  intro fuel
  induction fuel with
  | zero => intro cur l h; simp [backChain] at h
  | succ f ih =>
    intro cur l h
    rw [backChain] at h
    split at h
    · injection h with h
      subst h
      intro x hx
      simp at hx
    · rename_i hcur
      cases hlk : prev.lookup cur with
      | none => rw [hlk] at h; simp at h
      | some u =>
        rw [hlk] at h
        rcases Option.map_eq_some'.mp h with ⟨m, hm, hl⟩
        subst hl
        rcases backChain_shape hm with ⟨t, rfl⟩
        intro x hx
        rw [List.dropLast_cons₂] at hx
        rcases List.mem_cons.mp hx with rfl | hxm
        · exact hcur
        · exact ih hm x hxm

theorem backChain_mono {prev : List (String × String)} {src : String} :
    ∀ {fuel : Nat} {cur : String} {l : List String},
      backChain prev src fuel cur = some l →
      backChain prev src (fuel + 1) cur = some l := by
  intro fuel
  induction fuel with
  | zero => intro cur l h; simp [backChain] at h
  | succ f ih =>
    intro cur l h
    by_cases hcur : cur = src
    · rw [backChain, if_pos hcur] at h
      rw [backChain, if_pos hcur]
      exact h
    · rw [backChain, if_neg hcur] at h
      rw [backChain, if_neg hcur]
      cases hlk : prev.lookup cur with
      | none => rw [hlk] at h; simp at h
      | some u =>
        rw [hlk] at h
        rcases Option.map_eq_some'.mp h with ⟨m, hm, hl⟩
        exact Option.map_eq_some'.mpr ⟨m, ih hm, hl⟩

theorem backChain_sub {prev : List (String × String)} {src : String} :
    ∀ {fuel : Nat} {cur : String} {l : List String},
      backChain prev src fuel cur = some l →
      ∀ x ∈ l, ∃ l2, backChain prev src fuel x = some l2 ∧ l2.length ≤ l.length := by
  intro fuel
  induction fuel with
  | zero => intro cur l h; simp [backChain] at h
  | succ f ih =>
    intro cur l h x hx
    rcases backChain_shape h with ⟨t, rfl⟩
    rcases List.mem_cons.mp hx with rfl | hxt
    · exact ⟨x :: t, h, le_refl _⟩
    · rw [backChain] at h
      split at h
      · injection h with h
        injection h with h1 h2
        rw [← h2] at hxt
        cases hxt
      · cases hlk : prev.lookup cur with
        | none => rw [hlk] at h; simp at h
        | some u =>
          rw [hlk] at h
          rcases Option.map_eq_some'.mp h with ⟨m, hm, hl⟩
          have hmt : m = t := ((List.cons.injEq _ _ _ _).mp hl).2
          subst hmt
          rcases ih hm x hxt with ⟨l2, hl2, hlen⟩
          refine ⟨l2, backChain_mono hl2, ?_⟩
          simp only [List.length_cons]
          omega

theorem backChain_nodup {prev : List (String × String)} {src : String} :
    ∀ {fuel : Nat} {cur : String} {l : List String},
      backChain prev src fuel cur = some l → l.Nodup := by
  intro fuel
  induction fuel with
  | zero => intro cur l h; simp [backChain] at h
  | succ f ih =>
    intro cur l h
    have horig := h
    rw [backChain] at h
    split at h
    · injection h with h
      subst h
      exact List.nodup_singleton _
    · cases hlk : prev.lookup cur with
      | none => rw [hlk] at h; simp at h
      | some u =>
        rw [hlk] at h
        rcases Option.map_eq_some'.mp h with ⟨m, hm, hl⟩
        subst hl
        refine List.nodup_cons.mpr ⟨?_, ih hm⟩
        intro hcurm
        rcases backChain_sub hm cur hcurm with ⟨l2, hl2, hlen⟩
        have h2 : backChain prev src (f + 1) cur = some l2 := backChain_mono hl2
        rw [horig] at h2
        injection h2 with h2
        rw [← h2] at hlen
        simp only [List.length_cons] at hlen
        omega

theorem reconstructPath_spec {prev : List (String × String)} {src dest : String}
    (h : reconstructPath prev src dest ≠ []) :
    ∃ l, backChain prev src (prev.length + 1) dest = some l ∧
      reconstructPath prev src dest = l.reverse := by
  cases hlk : prev.lookup dest with
  | none =>
    exfalso
    apply h
    unfold reconstructPath
    rw [hlk]
  | some u =>
    cases hbc : backChain prev src (prev.length + 1) dest with
    | none =>
      exfalso
      apply h
      unfold reconstructPath
      rw [hlk, hbc]
    | some l =>
      refine ⟨l, rfl, ?_⟩
      unfold reconstructPath
      rw [hlk, hbc]

theorem runDijkstra_spec {g : Graph} {source dest : String}
    {edgeOk : String → String → EdgeData → Bool}
    (h : runDijkstra g source dest edgeOk ≠ []) :
    ∃ l, backChain (dijkstraFinalState g source edgeOk).prev source
        ((dijkstraFinalState g source edgeOk).prev.length + 1) dest = some l ∧
      runDijkstra g source dest edgeOk = l.reverse := by
  unfold runDijkstra at h ⊢
  exact reconstructPath_spec h

theorem runDijkstra_mem {g : Graph} {source dest : String}
    {edgeOk : String → String → EdgeData → Bool} {x : String}
    (hx : x ∈ runDijkstra g source dest edgeOk) :
    x = source ∨ ∃ u, (x, u) ∈ (dijkstraFinalState g source edgeOk).prev := by
  have hne : runDijkstra g source dest edgeOk ≠ [] := by
    intro he
    rw [he] at hx
    cases hx
  obtain ⟨l, hbc, heq⟩ := runDijkstra_spec hne
  rw [heq] at hx
  rcases backChain_mem hbc x (List.mem_reverse.mp hx) with h | ⟨u, hu⟩
  · exact Or.inl h
  · exact Or.inr ⟨u, lookup_mem hu⟩

theorem runDijkstra_node_fact {g : Graph} {source dest : String}
    {edgeOk : String → String → EdgeData → Bool} {P : String → String → Prop}
    (hOk : ∀ u v e, edgeOk u v e = true → P v u) {x : String}
    (hx : x ∈ runDijkstra g source dest edgeOk) :
    x = source ∨ ∃ u, P x u := by
  rcases runDijkstra_mem hx with h | ⟨u, hu⟩
  · exact Or.inl h
  · exact Or.inr ⟨u, finalState_prevInv hOk (x, u) hu⟩

theorem runDijkstra_chain {g : Graph} {source dest : String}
    {edgeOk : String → String → EdgeData → Bool} {Q : String → String → Prop}
    (hOk : ∀ u v e, edgeOk u v e = true → Q u v) :
    List.Chain' Q (runDijkstra g source dest edgeOk) := by
  by_cases hne : runDijkstra g source dest edgeOk = []
  · rw [hne]
    exact List.chain'_nil
  · obtain ⟨l, hbc, heq⟩ := runDijkstra_spec hne
    rw [heq, List.chain'_reverse]
    refine List.Chain'.imp ?_ (backChain_chain hbc)
    intro a b hab
    exact finalState_prevInv (P := fun v u => Q u v) hOk (a, b) (lookup_mem hab)

theorem runDijkstra_head {g : Graph} {source dest : String}
    {edgeOk : String → String → EdgeData → Bool}
    (hne : runDijkstra g source dest edgeOk ≠ []) :
    (runDijkstra g source dest edgeOk).head? = some source := by
  obtain ⟨l, hbc, heq⟩ := runDijkstra_spec hne
  rw [heq, List.head?_reverse]
  exact backChain_last hbc

theorem runDijkstra_last {g : Graph} {source dest : String}
    {edgeOk : String → String → EdgeData → Bool}
    (hne : runDijkstra g source dest edgeOk ≠ []) :
    (runDijkstra g source dest edgeOk).getLast? = some dest := by
  obtain ⟨l, hbc, heq⟩ := runDijkstra_spec hne
  rw [heq, List.getLast?_reverse]
  rcases backChain_shape hbc with ⟨t, rfl⟩
  rfl

theorem runDijkstra_nodup {g : Graph} {source dest : String}
    {edgeOk : String → String → EdgeData → Bool} :
    (runDijkstra g source dest edgeOk).Nodup := by
  by_cases hne : runDijkstra g source dest edgeOk = []
  · rw [hne]
    exact List.nodup_nil
  · obtain ⟨l, hbc, heq⟩ := runDijkstra_spec hne
    rw [heq, List.nodup_reverse]
    exact backChain_nodup hbc

theorem runDijkstra_count_source {g : Graph} {source dest : String}
    {edgeOk : String → String → EdgeData → Bool}
    (hne : runDijkstra g source dest edgeOk ≠ []) :
    (runDijkstra g source dest edgeOk).count source = 1 := by
  obtain ⟨l, hbc, heq⟩ := runDijkstra_spec hne
  have hlne : l ≠ [] := by
    rcases backChain_shape hbc with ⟨t, rfl⟩
    simp
  have hsplit : l.dropLast ++ [l.getLast hlne] = l := List.dropLast_append_getLast hlne
  have hlast : l.getLast hlne = source := by
    have hl := backChain_last hbc
    rw [List.getLast?_eq_getLast l hlne] at hl
    exact Option.some_inj.mp hl
  rw [heq, List.count_reverse, ← hsplit, List.count_append, hlast]
  have hz : l.dropLast.count source = 0 :=
    List.count_eq_zero.mpr (fun hmem => backChain_front_ne hbc _ hmem rfl)
  rw [hz]
  simp

theorem getLast_not_mem_dropLast_of_nodup {l : List String} (hn : l.Nodup)
    (hne : l ≠ []) : l.getLast hne ∉ l.dropLast := by
  have hsplit := List.dropLast_append_getLast hne
  rw [← hsplit] at hn
  rcases List.nodup_append.mp hn with ⟨_, _, hdisj⟩
  intro hmem
  exact hdisj hmem (List.mem_singleton_self _)

/-! ### Time aggregation -/

theorem calculateDrivingTime_eq (g : Graph) (path : List String) :
    calculateDrivingTime g path =
      (calcAux (fun e => e.drivingTime) (getAdjacencyList g) path).getD (-1) := by
  unfold calculateDrivingTime
  split
  · rename_i hlen
    cases path with
    | nil => rfl
    | cons a t =>
      cases t with
      | nil => rfl
      | cons b t2 => simp at hlen; omega
  · rfl

theorem calculateWalkingTime_eq (g : Graph) (path : List String) :
    calculateWalkingTime g path =
      (calcAux (fun e => e.walkingTime) (getAdjacencyList g) path).getD (-1) := by
  unfold calculateWalkingTime
  split
  · rename_i hlen
    cases path with
    | nil => rfl
    | cons a t =>
      cases t with
      | nil => rfl
      | cons b t2 => simp at hlen; omega
  · rfl

theorem pathPairs_cons_cons (a b : String) (t : List String) :
    pathPairs (a :: b :: t) = (a, b) :: pathPairs (b :: t) := rfl

theorem mem_pathPairs_length {path : List String} {p : String × String}
    (hp : p ∈ pathPairs path) : 2 ≤ path.length := by
  cases path with
  | nil => cases hp
  | cons a t =>
    cases t with
    | nil => cases hp
    | cons b t2 => simp

theorem calcAux_none_iff (sel : EdgeData → Int)
    (adj : String → List (String × EdgeData)) :
    ∀ path : List String,
      calcAux sel adj path = none ↔ ∃ p ∈ pathPairs path, stepBad sel adj p.1 p.2
  | [] => by simp [calcAux, pathPairs]
  | [a] => by simp [calcAux, pathPairs]
  | a :: b :: t => by
    cases hlk : lookupEdge (adj a) b with
    | none =>
      rw [calcAux, pathPairs_cons_cons]
      simp only [hlk]
      constructor
      · intro _
        exact ⟨(a, b), List.mem_cons_self _ _, by simp [stepBad, hlk]⟩
      · intro _
        trivial
    | some e =>
      by_cases hsel : sel e = -1
      · rw [calcAux, pathPairs_cons_cons]
        simp only [hlk, if_pos hsel]
        constructor
        · intro _
          exact ⟨(a, b), List.mem_cons_self _ _, by simp [stepBad, hlk, hsel]⟩
        · intro _
          trivial
      · rw [calcAux, pathPairs_cons_cons]
        simp only [hlk, if_neg hsel]
        rw [Option.map_eq_none', calcAux_none_iff sel adj (b :: t)]
        constructor
        · rintro ⟨p, hp, hbad⟩
          exact ⟨p, List.mem_cons_of_mem _ hp, hbad⟩
        · rintro ⟨p, hp, hbad⟩
          rcases List.mem_cons.mp hp with rfl | hp2
          · exfalso
            unfold stepBad at hbad
            rw [hlk] at hbad
            exact hsel hbad
          · exact ⟨p, hp2, hbad⟩

theorem calcAux_some_nonneg {sel : EdgeData → Int}
    {adj : String → List (String × EdgeData)}
    (hsel : ∀ a b e, lookupEdge (adj a) b = some e → sel e = -1 ∨ 0 ≤ sel e) :
    ∀ (path : List String) (t : Int), calcAux sel adj path = some t → 0 ≤ t
  | [], t, h => by
    injection h with h
    omega
  | [a], t, h => by
    injection h with h
    omega
  | a :: b :: r, t, h => by
    cases hlk : lookupEdge (adj a) b with
    | none =>
      rw [calcAux] at h
      simp only [hlk] at h
      exact Option.noConfusion h
    | some e =>
      by_cases hs : sel e = -1
      · rw [calcAux] at h
        simp only [hlk, if_pos hs] at h
        exact Option.noConfusion h
      · rw [calcAux] at h
        simp only [hlk, if_neg hs] at h
        rcases Option.map_eq_some'.mp h with ⟨t2, ht2, rfl⟩
        have h1 : 0 ≤ sel e := by
          rcases hsel a b e hlk with h' | h'
          · exact absurd h' hs
          · exact h'
        have h2 := calcAux_some_nonneg hsel (b :: r) t2 ht2
        omega

theorem oadd_map_left (c : Int) (x y : Option Int) :
    oadd (x.map (fun a => c + a)) y = (oadd x y).map (fun a => c + a) := by
  cases x with
  | none => rfl
  | some a =>
    cases y with
    | none => rfl
    | some b =>
      simp [oadd, add_assoc]

theorem calcAux_append (sel : EdgeData → Int)
    (adj : String → List (String × EdgeData)) (w : String) (r : List String) :
    ∀ q : List String,
      calcAux sel adj (q ++ w :: r) =
        oadd (calcAux sel adj (q ++ [w])) (calcAux sel adj (w :: r))
  | [] => by
    cases hx : calcAux sel adj (w :: r) with
    | none => simp [calcAux, oadd, hx]
    | some t => simp [calcAux, oadd, hx]
  | [a] => by
    show calcAux sel adj (a :: w :: r) = oadd (calcAux sel adj (a :: [w])) _
    cases hlk : lookupEdge (adj a) w with
    | none =>
      rw [calcAux, calcAux]
      simp only [hlk]
      rfl
    | some e =>
      by_cases hs : sel e = -1
      · rw [calcAux, calcAux]
        simp only [hlk, if_pos hs]
        rfl
      · rw [calcAux, calcAux]
        simp only [hlk, if_neg hs]
        cases hx : calcAux sel adj (w :: r) with
        | none => simp [calcAux, oadd, hx]
        | some t => simp [calcAux, oadd, hx]
  | a :: b :: q => by
    show calcAux sel adj (a :: b :: (q ++ w :: r)) =
      oadd (calcAux sel adj (a :: b :: (q ++ [w]))) _
    cases hlk : lookupEdge (adj a) b with
    | none =>
      rw [calcAux, calcAux]
      simp only [hlk]
      rfl
    | some e =>
      by_cases hs : sel e = -1
      · rw [calcAux, calcAux]
        simp only [hlk, if_pos hs]
        rfl
      · rw [calcAux, calcAux]
        simp only [hlk, if_neg hs]
        have hrec := calcAux_append sel adj w r (b :: q)
        rw [show (b :: q) ++ w :: r = b :: (q ++ w :: r) from rfl] at hrec
        rw [show (b :: q) ++ [w] = b :: (q ++ [w]) from rfl] at hrec
        rw [hrec]
        exact (oadd_map_left (sel e) _ _).symm

theorem ecoBestOf_bestTotal (g : Graph) (source dest : String)
    (aN : List String) (aS : List (String × String)) (park : String) :
    (ecoBestOf g source dest aN aS park).bestTotal =
      ecoTotal g source dest aN aS park := rfl

theorem ecoBestOf_bestWalkTime (g : Graph) (source dest : String)
    (aN : List String) (aS : List (String × String)) (park : String) :
    (ecoBestOf g source dest aN aS park).bestWalkTime =
      ecoWalkTime g dest aN aS park := rfl

theorem ecoStep_eq (g : Graph) (source dest : String) (maxWalkTime : Int)
    (aN : List String) (aS : List (String × String)) (b : EcoBest)
    (park : String) :
    ecoStep g source dest maxWalkTime aN aS b park =
      if ecoSurvives g source dest maxWalkTime aN aS park = true then
        (if ecoBeats g source dest aN aS park b
          then ecoBestOf g source dest aN aS park else b)
      else b := by
  by_cases h1 : park ∈ aN
  · simp [ecoStep, ecoSurvives, h1]
  · by_cases h2 : dijkstraRestricted g source park aN aS = []
    · simp [ecoStep, ecoSurvives, ecoDrivePath, h1, h2]
    · by_cases h3 : dijkstraRestricted g park dest aN aS = []
      · simp [ecoStep, ecoSurvives, ecoDrivePath, ecoWalkPath, h1, h2, h3]
      · by_cases h4 :
          calculateWalkingTime g (dijkstraRestricted g park dest aN aS) > maxWalkTime
        · simp [ecoStep, ecoSurvives, ecoDrivePath, ecoWalkPath, ecoWalkTime,
            h1, h2, h3, h4]
        · simp [ecoStep, ecoSurvives, ecoBeats, ecoBestOf, ecoDrivePath,
            ecoWalkPath, ecoWalkTime, ecoDriveTime, ecoTotal, h1, h2, h3, h4]

/-! ### The parking-candidate selection loop -/

theorem keyLe_refl (b : EcoBest) : keyLe b b := Or.inr ⟨rfl, le_refl _⟩

theorem keyLe_trans {a b c : EcoBest} (h1 : keyLe a b) (h2 : keyLe b c) :
    keyLe a c := by
  unfold keyLe at h1 h2 ⊢
  omega

theorem ecoStep_keyLe (g : Graph) (source dest : String) (maxWalkTime : Int)
    (aN : List String) (aS : List (String × String)) (b : EcoBest)
    (park : String) :
    keyLe (ecoStep g source dest maxWalkTime aN aS b park) b := by
  rw [ecoStep_eq]
  split
  · split
    · rename_i hbeat
      unfold ecoBeats at hbeat
      unfold keyLe
      rw [ecoBestOf_bestTotal, ecoBestOf_bestWalkTime]
      omega
    · exact keyLe_refl b
  · exact keyLe_refl b

theorem ecoStep_keyLe_bestOf (g : Graph) (source dest : String)
    (maxWalkTime : Int) (aN : List String) (aS : List (String × String))
    (b : EcoBest) (park : String)
    (hs : ecoSurvives g source dest maxWalkTime aN aS park = true) :
    keyLe (ecoStep g source dest maxWalkTime aN aS b park)
      (ecoBestOf g source dest aN aS park) := by
  rw [ecoStep_eq, if_pos hs]
  split
  · exact keyLe_refl _
  · rename_i hbeat
    unfold ecoBeats at hbeat
    unfold keyLe
    rw [ecoBestOf_bestTotal, ecoBestOf_bestWalkTime]
    omega

theorem ecoFold_keyLe (g : Graph) (source dest : String) (maxWalkTime : Int)
    (aN : List String) (aS : List (String × String)) :
    ∀ (cands : List String) (b : EcoBest),
      keyLe (cands.foldl (ecoStep g source dest maxWalkTime aN aS) b) b := by
  intro cands
  induction cands with
  | nil => exact fun b => keyLe_refl b
  | cons c t ih =>
    intro b
    rw [List.foldl_cons]
    exact keyLe_trans (ih _) (ecoStep_keyLe g source dest maxWalkTime aN aS b c)

theorem ecoFold_opt (g : Graph) (source dest : String) (maxWalkTime : Int)
    (aN : List String) (aS : List (String × String)) :
    ∀ (cands : List String) (b : EcoBest) (q : String),
      q ∈ survivorsList g source dest maxWalkTime aN aS cands →
      ¬ ecoBeats g source dest aN aS q
          (cands.foldl (ecoStep g source dest maxWalkTime aN aS) b) := by
  intro cands
  induction cands with
  | nil =>
    intro b q hq
    simp [survivorsList] at hq
  | cons c t ih =>
    intro b q hq
    rw [survivorsList, List.filter_cons] at hq
    rw [List.foldl_cons]
    by_cases hc : ecoSurvives g source dest maxWalkTime aN aS c = true
    · rw [if_pos hc] at hq
      rcases List.mem_cons.mp hq with rfl | hq2
      · have hk1 : keyLe (t.foldl (ecoStep g source dest maxWalkTime aN aS)
            (ecoStep g source dest maxWalkTime aN aS b q))
            (ecoStep g source dest maxWalkTime aN aS b q) :=
          ecoFold_keyLe g source dest maxWalkTime aN aS t _
        have hk2 : keyLe (ecoStep g source dest maxWalkTime aN aS b q)
            (ecoBestOf g source dest aN aS q) :=
          ecoStep_keyLe_bestOf g source dest maxWalkTime aN aS b q hc
        have hk := keyLe_trans hk1 hk2
        unfold keyLe at hk
        rw [ecoBestOf_bestTotal, ecoBestOf_bestWalkTime] at hk
        unfold ecoBeats
        omega
      · exact ih _ q hq2
    · rw [if_neg hc] at hq
      exact ih _ q hq

theorem ecoFold_first (g : Graph) (source dest : String) (maxWalkTime : Int)
    (aN : List String) (aS : List (String × String)) :
    ∀ (cands : List String) (b : EcoBest),
      cands.foldl (ecoStep g source dest maxWalkTime aN aS) b = b ∨
      ∃ l1 p l2, survivorsList g source dest maxWalkTime aN aS cands = l1 ++ p :: l2 ∧
        cands.foldl (ecoStep g source dest maxWalkTime aN aS) b =
          ecoBestOf g source dest aN aS p ∧
        ecoBeats g source dest aN aS p b ∧
        ∀ q ∈ l1, ecoBeats g source dest aN aS p (ecoBestOf g source dest aN aS q) := by
  intro cands
  induction cands with
  | nil => exact fun b => Or.inl rfl
  | cons c t ih =>
    intro b
    rw [List.foldl_cons]
    have hsurv : survivorsList g source dest maxWalkTime aN aS (c :: t) =
        if ecoSurvives g source dest maxWalkTime aN aS c = true then
          c :: survivorsList g source dest maxWalkTime aN aS t
        else survivorsList g source dest maxWalkTime aN aS t := by
      rw [survivorsList, List.filter_cons]
      split
      · rfl
      · rfl
    by_cases hc : ecoSurvives g source dest maxWalkTime aN aS c = true
    · rw [if_pos hc] at hsurv
      by_cases hbc : ecoBeats g source dest aN aS c b
      · have hstep : ecoStep g source dest maxWalkTime aN aS b c =
            ecoBestOf g source dest aN aS c := by
          rw [ecoStep_eq, if_pos hc, if_pos hbc]
        rw [hstep]
        rcases ih (ecoBestOf g source dest aN aS c) with h | ⟨l1, p, l2, hs, hf, hb, hall⟩
        · refine Or.inr ⟨[], c, survivorsList g source dest maxWalkTime aN aS t,
            ?_, h, hbc, ?_⟩
          · rw [hsurv]
            rfl
          · intro q hq
            cases hq
        · refine Or.inr ⟨c :: l1, p, l2, ?_, hf, ?_, ?_⟩
          · rw [hsurv, hs]
            rfl
          · unfold ecoBeats at hb hbc ⊢
            rw [ecoBestOf_bestTotal, ecoBestOf_bestWalkTime] at hb
            omega
          · intro q hq
            rcases List.mem_cons.mp hq with rfl | hq2
            · exact hb
            · exact hall q hq2
      · have hstep : ecoStep g source dest maxWalkTime aN aS b c = b := by
          rw [ecoStep_eq, if_pos hc, if_neg hbc]
        rw [hstep]
        rcases ih b with h | ⟨l1, p, l2, hs, hf, hb, hall⟩
        · exact Or.inl h
        · refine Or.inr ⟨c :: l1, p, l2, ?_, hf, hb, ?_⟩
          · rw [hsurv, hs]
            rfl
          · intro q hq
            rcases List.mem_cons.mp hq with rfl | hq2
            · unfold ecoBeats at hb hbc ⊢
              rw [ecoBestOf_bestTotal, ecoBestOf_bestWalkTime]
              omega
            · exact hall q hq2
    · rw [if_neg hc] at hsurv
      have hstep : ecoStep g source dest maxWalkTime aN aS b c = b := by
        rw [ecoStep_eq, if_neg hc]
      rw [hstep, hsurv]
      exact ih b

theorem ecoStep_inv (g : Graph) (source dest : String) (maxWalkTime : Int)
    (aN : List String) (aS : List (String × String)) (b : EcoBest)
    (park : String) (h : EcoInv g source dest maxWalkTime aN aS b) :
    EcoInv g source dest maxWalkTime aN aS
      (ecoStep g source dest maxWalkTime aN aS b park) := by
  rw [ecoStep_eq]
  split
  · split
    · rename_i hs _
      intro _
      exact ⟨rfl, rfl, hs⟩
    · exact h
  · exact h

theorem ecoFold_inv (g : Graph) (source dest : String) (maxWalkTime : Int)
    (aN : List String) (aS : List (String × String)) :
    ∀ (cands : List String) (b : EcoBest),
      EcoInv g source dest maxWalkTime aN aS b →
      EcoInv g source dest maxWalkTime aN aS
        (cands.foldl (ecoStep g source dest maxWalkTime aN aS) b) := by
  intro cands
  induction cands with
  | nil => exact fun b h => h
  | cons c t ih =>
    intro b h
    rw [List.foldl_cons]
    exact ih _ (ecoStep_inv g source dest maxWalkTime aN aS b c h)

/-! ### The claims -/

/-- C9: for every graph, source and destination, `dijkstraRestricted`
called with the empty excluded-node set and the empty excluded-segment set
returns exactly the same path as `dijkstraShortestPath` on the same graph,
source and destination. -/
theorem C9_restricted_empty_eq_shortest (g : Graph) (source dest : String) :
    dijkstraRestricted g source dest [] [] = dijkstraShortestPath g source dest := by
  unfold dijkstraRestricted dijkstraShortestPath
  congr 1
  funext u v e
  simp

/-- C2 as stated is false at a concrete input: on the graph with the single
edge A–B, the source A is a node of the graph, yet
`dijkstraShortestPath g A A` returns the empty sentinel, not the
single-element path `[A]`. -/
theorem C2_counterexample :
    dijkstraShortestPath [("A", "B", 1, 1)] "A" "A" = [] ∧
      isGraphNode [("A", "B", 1, 1)] "A" = true ∧
      dijkstraShortestPath [("A", "B", 1, 1)] "A" "A" ≠ ["A"] := by decide

/-- C2 (amended): for every graph with non-negative available driving
weights and every node x, `dijkstraShortestPath g x x` returns the empty
path; the empty sentinel therefore does not distinguish the no-route case
from source = destination. -/
theorem C2_self_route_empty (g : Graph) (x : String) (hg : WeightsOk g) :
    dijkstraShortestPath g x x = [] := by
  unfold dijkstraShortestPath
  exact runDijkstra_self_empty (plainOk_weight hg)

/-- Witness for C2: the amended theorem applied at a concrete graph. -/
theorem C2_witness : dijkstraShortestPath [("A", "B", 1, 1)] "A" "A" = [] :=
  C2_self_route_empty [("A", "B", 1, 1)] "A" (by decide)

/-- C3 as stated is false at a concrete input: excluding the source A, the
returned path still contains A, an excluded node. -/
theorem C3_counterexample :
    dijkstraRestricted [("A", "B", 1, 1)] "A" "B" ["A"] [] = ["A", "B"] ∧
      "A" ∈ (["A"] : List String) ∧
      "A" ∈ dijkstraRestricted [("A", "B", 1, 1)] "A" "B" ["A"] [] := by decide

/-- C3 (amended): the path returned by `dijkstraRestricted` contains no
node of the excluded-node set other than the source, and traverses no
segment of the excluded-segment set in either direction. -/
theorem C3_restricted_avoids (g : Graph) (source dest : String)
    (aN : List String) (aS : List (String × String)) :
    (∀ x ∈ dijkstraRestricted g source dest aN aS, x ∈ aN → x = source) ∧
      List.Chain' (fun a b => (a, b) ∉ aS ∧ (b, a) ∉ aS)
        (dijkstraRestricted g source dest aN aS) := by
  constructor
  · intro x hx hxa
    unfold dijkstraRestricted at hx
    have hOk : ∀ (u v : String) (e : EdgeData),
        (!(e.drivingTime == -1) && !(aN.contains v) &&
          !(aS.contains (u, v) || aS.contains (v, u))) = true →
        v ∉ aN := by
      intro u v e hok
      simp only [Bool.and_eq_true, Bool.not_eq_true'] at hok
      exact contains_false_not_mem hok.1.2
    rcases runDijkstra_node_fact (P := fun v _ => v ∉ aN) hOk hx with h | ⟨u, hu⟩
    · exact h
    · exact absurd hxa hu
  · unfold dijkstraRestricted
    apply runDijkstra_chain (Q := fun u v => (u, v) ∉ aS ∧ (v, u) ∉ aS)
    intro u v e hok
    simp only [Bool.and_eq_true, Bool.not_eq_true', Bool.or_eq_false_iff] at hok
    exact ⟨contains_false_not_mem hok.2.1, contains_false_not_mem hok.2.2⟩

/-- Witness for C3: at a concrete run, the excluded node appearing on the
path is necessarily the source, and the traversed segment A–B is not in
the excluded-segment set. -/
theorem C3_witness :
    ("A" : String) = "A" ∧ ("A", "B") ∉ ([("C", "D")] : List (String × String)) := by
  have h := C3_restricted_avoids [("A", "B", 1, 1)] "A" "B" ["A"] [("C", "D")]
  refine ⟨h.1 "A" (by decide) (by decide), ?_⟩
  have hres : dijkstraRestricted [("A", "B", 1, 1)] "A" "B" ["A"] [("C", "D")] =
      ["A", "B"] := by decide
  have h2 := h.2
  rw [hres] at h2
  exact (List.chain'_cons.mp h2).1.1

/-- C6: the claim is right and the code is wrong.  The forbidden-set
derivation of `findAlternativeRoute` iterates to `mainPath.size() - 1`
with unsigned wrap-around and builds the node set from the iterator range
`(begin()+1, end()-1)`; for a main path shorter than 2 the loop reads
out of bounds (on the empty path it performs 2^64-1 iterations, the first
already reading `mainPath[0]` and `mainPath[1]`) and the iterator range is
invalid, instead of the guarded empty-sentinel return the claim
describes. -/
theorem C6_alt_derivation_out_of_bounds :
    ¬ altForbiddenLoopInBounds [] ∧
      altForbiddenLoopBound [] = 2 ^ 64 - 1 ∧
      ¬ altForbiddenNodesRangeOk [] ∧
      ¬ altForbiddenNodesRangeOk ["A"] ∧
      altForbiddenNodesRangeOk ["A", "B"] := by
  refine ⟨?_, by decide, by decide, by decide, by decide⟩
  intro h
  have h0 := h 0 (by decide)
  simp at h0

/-- C1: the code contradicts the claim (and the spec's contract).  At this
concrete input the only walking connection of the parking node P to the
destination D is unavailable (walking time -1), yet `findEcoRoute` returns
a non-empty result whose walk leg is [P, D]: the walk leg was searched
with the driving weight by `dijkstraRestricted`, and its aggregated
walking time -1 slips through the `walkTime > maxWalkTime` budget test. -/
theorem C1_eco_walk_leg_bug :
    findEcoRoute [⟨"p", 2, "P", true⟩] [("A", "P", 1, 1), ("P", "D", 1, -1)]
        "A" "D" 10 [] [] =
      ((["A", "P"], "P", ["P", "D"]), "Eco route found.") ∧
      lookupEdge (getAdjacencyList [("A", "P", 1, 1), ("P", "D", 1, -1)] "P") "D" =
        some ⟨1, -1⟩ ∧
      calculateWalkingTime [("A", "P", 1, 1), ("P", "D", 1, -1)] ["P", "D"] = -1 := by
  decide

/-- C5: whenever `findAlternativeRoute` returns a path, that path contains
no intermediate node of the main path (other than the search's own source)
and traverses no segment of the main path in either direction. -/
theorem C5_alternative_disjoint (g : Graph) (source dest : String)
    (mainPath : List String) :
    (∀ x ∈ findAlternativeRoute g source dest mainPath,
        x ∈ (mainPath.drop 1).dropLast → x = source) ∧
      List.Chain'
        (fun a b => (a, b) ∉ pathPairs mainPath ∧ (b, a) ∉ pathPairs mainPath)
        (findAlternativeRoute g source dest mainPath) := by
  constructor
  · intro x hx hxm
    simp only [findAlternativeRoute] at hx
    have hOk : ∀ (u v : String) (e : EdgeData),
        (!(e.drivingTime == -1) && !((forbiddenNodesOf mainPath).contains v) &&
          !((forbiddenEdgesOf mainPath).contains (u, v) ||
            (forbiddenEdgesOf mainPath).contains (v, u))) = true →
        v ∉ forbiddenNodesOf mainPath := by
      intro u v e hok
      simp only [Bool.and_eq_true, Bool.not_eq_true'] at hok
      exact contains_false_not_mem hok.1.2
    rcases runDijkstra_node_fact (P := fun v _ => v ∉ forbiddenNodesOf mainPath)
        hOk hx with h | ⟨u, hu⟩
    · exact h
    · exact absurd (show x ∈ forbiddenNodesOf mainPath from hxm) hu
  · have hQ : ∀ (u v : String) (e : EdgeData),
        (!(e.drivingTime == -1) && !((forbiddenNodesOf mainPath).contains v) &&
          !((forbiddenEdgesOf mainPath).contains (u, v) ||
            (forbiddenEdgesOf mainPath).contains (v, u))) = true →
        ((u, v) ∉ pathPairs mainPath ∧ (v, u) ∉ pathPairs mainPath) := by
      intro u v e hok
      simp only [Bool.and_eq_true, Bool.not_eq_true', Bool.or_eq_false_iff] at hok
      have h1 := contains_false_not_mem hok.2.1
      constructor
      · intro hm
        exact h1 (List.mem_append_left _ hm)
      · intro hm
        apply h1
        apply List.mem_append_right
        exact List.mem_map_of_mem _ hm
    show List.Chain' _ (findAlternativeRoute g source dest mainPath)
    simp only [findAlternativeRoute]
    exact runDijkstra_chain
      (Q := fun u v => (u, v) ∉ pathPairs mainPath ∧ (v, u) ∉ pathPairs mainPath) hQ

/-- Witness for C5: on a concrete graph whose search source happens to be
an intermediate node of the supplied main path, the node conclusion fires,
and the traversed segment A–B is not a segment of the main path. -/
theorem C5_witness :
    ("A" : String) = "A" ∧ ("A", "B") ∉ pathPairs ["X", "A", "Y"] := by
  have h := C5_alternative_disjoint [("A", "B", 1, 1)] "A" "B" ["X", "A", "Y"]
  refine ⟨h.1 "A" (by decide) (by decide), ?_⟩
  have hres : findAlternativeRoute [("A", "B", 1, 1)] "A" "B" ["X", "A", "Y"] =
      ["A", "B"] := by decide
  have h2 := h.2
  rw [hres] at h2
  exact (List.chain'_cons.mp h2).1.1

/-- C8: for graphs whose weights follow the data model (non-negative or
the -1 sentinel), both aggregation functions return 0 on paths shorter
than two nodes; they return the distinguished invalid value -1 exactly on
the paths where some consecutive pair has no connecting adjacency entry or
the first matching entry carries the unavailable sentinel; all other paths
aggregate to a non-negative total, so the invalid value is distinct from
zero and from every valid total. -/
theorem C8_aggregation_contract (g : Graph) (path : List String)
    (hg : WeightsOk g) :
    (path.length < 2 →
      calculateDrivingTime g path = 0 ∧ calculateWalkingTime g path = 0) ∧
    ((∃ p ∈ pathPairs path,
        stepBad (fun e => e.drivingTime) (getAdjacencyList g) p.1 p.2) →
      calculateDrivingTime g path = -1) ∧
    ((∀ p ∈ pathPairs path,
        ¬ stepBad (fun e => e.drivingTime) (getAdjacencyList g) p.1 p.2) →
      0 ≤ calculateDrivingTime g path) ∧
    ((∃ p ∈ pathPairs path,
        stepBad (fun e => e.walkingTime) (getAdjacencyList g) p.1 p.2) →
      calculateWalkingTime g path = -1) ∧
    ((∀ p ∈ pathPairs path,
        ¬ stepBad (fun e => e.walkingTime) (getAdjacencyList g) p.1 p.2) →
      0 ≤ calculateWalkingTime g path) := by
  have hselD : ∀ (a b : String) (e : EdgeData),
      lookupEdge (getAdjacencyList g a) b = some e →
      e.drivingTime = -1 ∨ 0 ≤ e.drivingTime := by
    intro a b e hlk
    exact (adj_weights hg (lookup_mem hlk)).1
  have hselW : ∀ (a b : String) (e : EdgeData),
      lookupEdge (getAdjacencyList g a) b = some e →
      e.walkingTime = -1 ∨ 0 ≤ e.walkingTime := by
    intro a b e hlk
    exact (adj_weights hg (lookup_mem hlk)).2
  refine ⟨?_, ?_, ?_, ?_, ?_⟩
  · intro hlen
    constructor
    · unfold calculateDrivingTime
      rw [if_pos hlen]
    · unfold calculateWalkingTime
      rw [if_pos hlen]
  · intro hex
    rw [calculateDrivingTime_eq,
      (calcAux_none_iff (fun e => e.drivingTime) (getAdjacencyList g) path).mpr hex]
    rfl
  · intro hall
    rw [calculateDrivingTime_eq]
    cases hca : calcAux (fun e => e.drivingTime) (getAdjacencyList g) path with
    | none =>
      obtain ⟨p, hp, hbad⟩ :=
        (calcAux_none_iff (fun e => e.drivingTime) (getAdjacencyList g) path).mp hca
      exact absurd hbad (hall p hp)
    | some t =>
      simpa using calcAux_some_nonneg hselD path t hca
  · intro hex
    rw [calculateWalkingTime_eq,
      (calcAux_none_iff (fun e => e.walkingTime) (getAdjacencyList g) path).mpr hex]
    rfl
  · intro hall
    rw [calculateWalkingTime_eq]
    cases hca : calcAux (fun e => e.walkingTime) (getAdjacencyList g) path with
    | none =>
      obtain ⟨p, hp, hbad⟩ :=
        (calcAux_none_iff (fun e => e.walkingTime) (getAdjacencyList g) path).mp hca
      exact absurd hbad (hall p hp)
    | some t =>
      simpa using calcAux_some_nonneg hselW path t hca

/-- Witness for C8: a missing pair makes the aggregate the invalid -1, and
a fully connected path aggregates to a non-negative total. -/
theorem C8_witness :
    calculateDrivingTime [("A", "B", 2, 3)] ["A", "C"] = -1 ∧
      0 ≤ calculateDrivingTime [("A", "B", 2, 3)] ["A", "B"] := by
  have h1 := C8_aggregation_contract [("A", "B", 2, 3)] ["A", "C"] (by decide)
  have h2 := C8_aggregation_contract [("A", "B", 2, 3)] ["A", "B"] (by decide)
  refine ⟨h1.2.1 ⟨("A", "C"), by decide, ?_⟩, h2.2.2.1 ?_⟩
  · show stepBad (fun e => e.drivingTime)
      (getAdjacencyList [("A", "B", 2, 3)]) "A" "C"
    unfold stepBad
    exact trivial
  · intro p hp hbad
    have hp2 : p = ("A", "B") := by
      have : pathPairs ["A", "B"] = [("A", "B")] := rfl
      rw [this] at hp
      exact List.mem_singleton.mp hp
    subst hp2
    have hne : ¬ ((2 : Int) = -1) := by decide
    exact hne hbad

theorem dijkstraRestricted_last {g : Graph} {source dest : String}
    {aN : List String} {aS : List (String × String)}
    (hne : dijkstraRestricted g source dest aN aS ≠ []) :
    (dijkstraRestricted g source dest aN aS).getLast? = some dest := by
  unfold dijkstraRestricted at hne ⊢
  exact runDijkstra_last hne

theorem dijkstraRestricted_head {g : Graph} {source dest : String}
    {aN : List String} {aS : List (String × String)}
    (hne : dijkstraRestricted g source dest aN aS ≠ []) :
    (dijkstraRestricted g source dest aN aS).head? = some source := by
  unfold dijkstraRestricted at hne ⊢
  exact runDijkstra_head hne

theorem dijkstraRestricted_nodup {g : Graph} {source dest : String}
    {aN : List String} {aS : List (String × String)} :
    (dijkstraRestricted g source dest aN aS).Nodup := by
  unfold dijkstraRestricted
  exact runDijkstra_nodup

theorem dijkstraRestricted_count_source {g : Graph} {source dest : String}
    {aN : List String} {aS : List (String × String)}
    (hne : dijkstraRestricted g source dest aN aS ≠ []) :
    (dijkstraRestricted g source dest aN aS).count source = 1 := by
  unfold dijkstraRestricted at hne ⊢
  exact runDijkstra_count_source hne

/-- C4 as stated is false at a concrete input: with two parallel A–B edges
whose first copy is undrivable, the legs returned by the waypoint split are
[A,B] and [B,C]; the composed route's aggregate is the invalid -1 (the
aggregation looks up the first A–B copy), while the sum of the two legs'
aggregates is -1 + 7 = 6. -/
theorem C4_counterexample :
    restrictedRouteWithWaypoint [("A", "B", -1, 1), ("A", "B", 5, 1), ("B", "C", 7, 1)]
        "A" "B" "C" [] [] = ["A", "B", "C"] ∧
      dijkstraRestricted [("A", "B", -1, 1), ("A", "B", 5, 1), ("B", "C", 7, 1)]
        "A" "B" [] [] = ["A", "B"] ∧
      dijkstraRestricted [("A", "B", -1, 1), ("A", "B", 5, 1), ("B", "C", 7, 1)]
        "B" "C" [] [] = ["B", "C"] ∧
      calculateDrivingTime [("A", "B", -1, 1), ("A", "B", 5, 1), ("B", "C", 7, 1)]
        ["A", "B", "C"] = -1 ∧
      calculateDrivingTime [("A", "B", -1, 1), ("A", "B", 5, 1), ("B", "C", 7, 1)]
          ["A", "B"] +
        calculateDrivingTime [("A", "B", -1, 1), ("A", "B", 5, 1), ("B", "C", 7, 1)]
          ["B", "C"] = 6 ∧
      (-1 : Int) ≠ 6 := by decide

/-- C4 (amended): with a mandatory waypoint, an empty leg collapses the
composition to the empty sentinel; otherwise the result is leg one without
its final element followed by leg two, the waypoint occurs exactly once,
and — provided neither leg's aggregate is the invalid value — the result's
aggregated driving time is the sum of the two legs' aggregates. -/
theorem C4_waypoint_composition (g : Graph) (source w dest : String)
    (aN : List String) (aS : List (String × String)) (hw : w ≠ "") :
    ((dijkstraRestricted g source w aN aS = [] ∨
        dijkstraRestricted g w dest aN aS = []) →
      restrictedRouteWithWaypoint g source w dest aN aS = []) ∧
    (dijkstraRestricted g source w aN aS ≠ [] →
      dijkstraRestricted g w dest aN aS ≠ [] →
      restrictedRouteWithWaypoint g source w dest aN aS =
        (dijkstraRestricted g source w aN aS).dropLast ++
          dijkstraRestricted g w dest aN aS ∧
      (restrictedRouteWithWaypoint g source w dest aN aS).count w = 1 ∧
      (calculateDrivingTime g (dijkstraRestricted g source w aN aS) ≠ -1 →
        calculateDrivingTime g (dijkstraRestricted g w dest aN aS) ≠ -1 →
        calculateDrivingTime g (restrictedRouteWithWaypoint g source w dest aN aS) =
          calculateDrivingTime g (dijkstraRestricted g source w aN aS) +
            calculateDrivingTime g (dijkstraRestricted g w dest aN aS))) := by
  constructor
  · intro hor
    simp only [restrictedRouteWithWaypoint, if_pos hw]
    rcases hor with h | h
    · rw [h]
      simp
    · rw [h]
      simp
  · intro h1 h2
    have hcond : (!(dijkstraRestricted g source w aN aS).isEmpty &&
        !(dijkstraRestricted g w dest aN aS).isEmpty) = true := by
      simp [h1, h2]
    have hres : restrictedRouteWithWaypoint g source w dest aN aS =
        (dijkstraRestricted g source w aN aS).dropLast ++
          dijkstraRestricted g w dest aN aS := by
      simp only [restrictedRouteWithWaypoint, if_pos hw]
      rw [if_pos hcond]
    have hlast : (dijkstraRestricted g source w aN aS).getLast? = some w :=
      dijkstraRestricted_last h1
    have hgl : (dijkstraRestricted g source w aN aS).getLast h1 = w := by
      rw [List.getLast?_eq_getLast _ h1] at hlast
      exact Option.some_inj.mp hlast
    have hwnot : w ∉ (dijkstraRestricted g source w aN aS).dropLast := by
      have hmem := getLast_not_mem_dropLast_of_nodup dijkstraRestricted_nodup h1
      rw [hgl] at hmem
      exact hmem
    have hhd : (dijkstraRestricted g w dest aN aS).head h2 = w := by
      have hh := dijkstraRestricted_head h2
      rw [List.head?_eq_head h2] at hh
      exact Option.some_inj.mp hh
    have hsplit2 : w :: (dijkstraRestricted g w dest aN aS).tail =
        dijkstraRestricted g w dest aN aS := by
      nth_rewrite 1 [← hhd]
      exact List.head_cons_tail _ h2
    refine ⟨hres, ?_, ?_⟩
    · rw [hres, List.count_append, List.count_eq_zero.mpr hwnot,
        dijkstraRestricted_count_source h2]
    · intro hv1 hv2
      have e1 := calculateDrivingTime_eq g (dijkstraRestricted g source w aN aS)
      have e2 := calculateDrivingTime_eq g (dijkstraRestricted g w dest aN aS)
      cases hca1 : calcAux (fun e => e.drivingTime) (getAdjacencyList g)
          (dijkstraRestricted g source w aN aS) with
      | none =>
        exfalso
        apply hv1
        rw [e1, hca1]
        rfl
      | some t1 =>
        cases hca2 : calcAux (fun e => e.drivingTime) (getAdjacencyList g)
            (dijkstraRestricted g w dest aN aS) with
        | none =>
          exfalso
          apply hv2
          rw [e2, hca2]
          rfl
        | some t2 =>
          have hsplit1 : (dijkstraRestricted g source w aN aS).dropLast ++ [w] =
              dijkstraRestricted g source w aN aS := by
            nth_rewrite 2 [← hgl]
            exact List.dropLast_append_getLast h1
          have happ := calcAux_append (fun e => e.drivingTime)
            (getAdjacencyList g) w (dijkstraRestricted g w dest aN aS).tail
            (dijkstraRestricted g source w aN aS).dropLast
          rw [hsplit2, hsplit1] at happ
          rw [hres, calculateDrivingTime_eq, happ, hca1, hca2, e1, hca1, e2, hca2]
          simp [oadd]

/-- Witness for C4: a concrete waypoint query in which both legs are
feasible and valid; the waypoint occurs once and the aggregate is the sum
3 + 4 of the legs. -/
theorem C4_witness :
    (restrictedRouteWithWaypoint [("A", "B", 3, 1), ("B", "C", 4, 1)]
        "A" "B" "C" [] []).count "B" = 1 ∧
      calculateDrivingTime [("A", "B", 3, 1), ("B", "C", 4, 1)]
        (restrictedRouteWithWaypoint [("A", "B", 3, 1), ("B", "C", 4, 1)]
          "A" "B" "C" [] []) = 7 := by
  have h := (C4_waypoint_composition [("A", "B", 3, 1), ("B", "C", 4, 1)]
    "A" "B" "C" [] [] (by decide)).2 (by decide) (by decide)
  refine ⟨h.2.1, ?_⟩
  have hadd := h.2.2 (by decide) (by decide)
  rw [hadd]
  decide

/-- C7: among the parking candidates that survive the filtering, the loop
returns the first candidate in iteration order attaining the optimum:
minimal total time, ties resolved towards the larger walk time (stated
with every surviving total below `INT_MAX`, i.e. inside the `int` range
the C++ initialisation relies on). -/
theorem C7_eco_selection (locations : List Location) (g : Graph)
    (source dest : String) (maxWalkTime : Int) (aN : List String)
    (aS : List (String × String))
    (hne : survivorsList g source dest maxWalkTime aN aS
        (parkingCandidatesOf locations) ≠ [])
    (hrange : ∀ p ∈ survivorsList g source dest maxWalkTime aN aS
        (parkingCandidatesOf locations),
      ecoTotal g source dest aN aS p < INT_MAX) :
    ∃ p l1 l2,
      survivorsList g source dest maxWalkTime aN aS (parkingCandidatesOf locations) =
        l1 ++ p :: l2 ∧
      findEcoRoute locations g source dest maxWalkTime aN aS =
        ((ecoDrivePath g source aN aS p, p, ecoWalkPath g dest aN aS p),
          "Eco route found.") ∧
      (∀ q ∈ survivorsList g source dest maxWalkTime aN aS
          (parkingCandidatesOf locations),
        ¬ ecoBeats g source dest aN aS q (ecoBestOf g source dest aN aS p)) ∧
      (∀ q ∈ l1, ecoBeats g source dest aN aS p (ecoBestOf g source dest aN aS q)) := by
  have hcne : parkingCandidatesOf locations ≠ [] := by
    intro h
    apply hne
    rw [survivorsList, h]
    rfl
  rcases ecoFold_first g source dest maxWalkTime aN aS (parkingCandidatesOf locations)
      ⟨"", INT_MAX, -1, [], []⟩ with hinit | ⟨l1, p, l2, hs, hf, _hb, hall⟩
  · exfalso
    obtain ⟨q0, hq0⟩ := List.exists_mem_of_ne_nil _ hne
    have hopt := ecoFold_opt g source dest maxWalkTime aN aS
      (parkingCandidatesOf locations) ⟨"", INT_MAX, -1, [], []⟩ q0 hq0
    rw [hinit] at hopt
    exact hopt (Or.inl (hrange q0 hq0))
  · have hpmem : p ∈ survivorsList g source dest maxWalkTime aN aS
        (parkingCandidatesOf locations) := by
      rw [hs]
      exact List.mem_append_right _ (List.mem_cons_self _ _)
    have hps : ecoSurvives g source dest maxWalkTime aN aS p = true := by
      rw [survivorsList] at hpmem
      exact (List.mem_filter.mp hpmem).2
    have hsd : ecoDrivePath g source aN aS p ≠ [] ∧
        ecoWalkPath g dest aN aS p ≠ [] := by
      simp only [ecoSurvives, Bool.and_eq_true, Bool.not_eq_true'] at hps
      constructor
      · intro h
        rw [h] at hps
        simp at hps
      · intro h
        rw [h] at hps
        simp at hps
    refine ⟨p, l1, l2, hs, ?_, ?_, hall⟩
    · simp only [findEcoRoute]
      have hnotempty : ¬ ((parkingCandidatesOf locations).isEmpty = true) := by
        intro h
        exact hcne (List.isEmpty_iff.mp h)
      rw [if_neg hnotempty, hf]
      have hcond : ((ecoBestOf g source dest aN aS p).bestDrivePath.isEmpty ||
          (ecoBestOf g source dest aN aS p).bestWalkPath.isEmpty) = true → False := by
        intro h
        rcases Bool.or_eq_true_iff.mp h with h' | h'
        · exact hsd.1 (List.isEmpty_iff.mp h')
        · exact hsd.2 (List.isEmpty_iff.mp h')
      rw [if_neg hcond]
      rfl
    · intro q hq
      have hopt := ecoFold_opt g source dest maxWalkTime aN aS
        (parkingCandidatesOf locations) ⟨"", INT_MAX, -1, [], []⟩ q hq
      rw [hf] at hopt
      exact hopt

/-- Witness for C7: concrete query with one surviving candidate P, which
is selected. -/
theorem C7_witness :
    findEcoRoute [⟨"p", 2, "P", true⟩] [("A", "P", 1, 1), ("P", "D", 1, 2)]
        "A" "D" 10 [] [] =
      ((["A", "P"], "P", ["P", "D"]), "Eco route found.") := by
  obtain ⟨p, l1, l2, hs, hret, _hopt, _hfirst⟩ :=
    C7_eco_selection [⟨"p", 2, "P", true⟩] [("A", "P", 1, 1), ("P", "D", 1, 2)]
      "A" "D" 10 [] [] (by decide) (by decide)
  have hs2 : l1 ++ p :: l2 = ["P"] := by
    rw [← hs]
    decide
  cases l1 with
  | cons a t =>
    exfalso
    have hlen := congrArg List.length hs2
    simp at hlen
  | nil =>
    simp at hs2
    rw [hret, hs2.1]
    decide

/-- C10: whenever `findEcoRoute` returns a non-empty result (for a graph
obeying the data model's non-negative-or-sentinel weights), the selected
parking node differs from both the source and the destination, because the
degenerate one-node leg computed by `dijkstraRestricted` for a parking
node equal to an endpoint is the empty sentinel and the candidate is
discarded. -/
theorem C10_eco_park_not_endpoint (locations : List Location) (g : Graph)
    (source dest : String) (maxWalkTime : Int) (aN : List String)
    (aS : List (String × String)) (hg : WeightsOk g)
    (dp wp : List String) (park msg : String)
    (hres : findEcoRoute locations g source dest maxWalkTime aN aS =
      ((dp, park, wp), msg))
    (hdp : dp ≠ []) :
    park ≠ source ∧ park ≠ dest := by
  simp only [findEcoRoute] at hres
  by_cases hempty : (parkingCandidatesOf locations).isEmpty = true
  · rw [if_pos hempty] at hres
    simp only [Prod.mk.injEq] at hres
    exact absurd hres.1.1.symm hdp
  · rw [if_neg hempty] at hres
    have hinv := ecoFold_inv g source dest maxWalkTime aN aS
      (parkingCandidatesOf locations) ⟨"", INT_MAX, -1, [], []⟩
      (fun h => absurd rfl h)
    by_cases hbe : (((parkingCandidatesOf locations).foldl
        (ecoStep g source dest maxWalkTime aN aS)
        ⟨"", INT_MAX, -1, [], []⟩).bestDrivePath.isEmpty ||
        ((parkingCandidatesOf locations).foldl
          (ecoStep g source dest maxWalkTime aN aS)
          ⟨"", INT_MAX, -1, [], []⟩).bestWalkPath.isEmpty) = true
    · rw [if_pos hbe] at hres
      simp only [Prod.mk.injEq] at hres
      exact absurd hres.1.1.symm hdp
    · rw [if_neg hbe] at hres
      simp only [Prod.mk.injEq] at hres
      obtain ⟨⟨hdp2, hpark, hwp⟩, _hmsg⟩ := hres
      have hnb : ((parkingCandidatesOf locations).foldl
          (ecoStep g source dest maxWalkTime aN aS)
          ⟨"", INT_MAX, -1, [], []⟩).bestDrivePath ≠ [] := by
        rw [hdp2]
        exact hdp
      obtain ⟨hd, hwk, hs⟩ := hinv hnb
      have hlegs : ecoDrivePath g source aN aS park ≠ [] ∧
          ecoWalkPath g dest aN aS park ≠ [] := by
        rw [hpark] at hs
        simp only [ecoSurvives, Bool.and_eq_true, Bool.not_eq_true'] at hs
        constructor
        · intro h
          rw [h] at hs
          simp at hs
        · intro h
          rw [h] at hs
          simp at hs
      constructor
      · intro he
        apply hlegs.1
        rw [he]
        unfold ecoDrivePath
        exact dijkstraRestricted_self hg
      · intro he
        apply hlegs.2
        rw [he]
        unfold ecoWalkPath
        exact dijkstraRestricted_self hg

/-- Witness for C10: at a concrete query the selected parking node P is
neither the source A nor the destination D. -/
theorem C10_witness : ("P" : String) ≠ "A" ∧ ("P" : String) ≠ "D" :=
  C10_eco_park_not_endpoint [⟨"p", 2, "P", true⟩]
    [("A", "P", 1, 1), ("P", "D", 1, 2)] "A" "D" 10 [] [] (by decide)
    ["A", "P"] ["P", "D"] "P" "Eco route found." (by decide) (by decide)
